import Mathlib

/-!
# MindGit server — formal model

A shallow embedding of the session-store and chat-proxy logic of
`src/server.js`: the recursive directory-backed session store
(`findSessionPath`, `getAllSessions`, the create / delete / summarize
endpoints), the context-chain builder (`buildContextChain`), the chat
endpoint's context injection, and the streaming-chunk relay loop.

Sessions are stored one per directory, nested under their parent's
directory; each directory holds one `session.json` document.  We model a
directory as a `Dir`: its name, its parsed document (`none` when
`session.json` is missing, unreadable or malformed — every situation in
which `JSON.parse`/`readFile` throws), and its subdirectories in
`readdir` order.  Non-directory entries are ignored by every traversal
in the source, so they are not modelled.
-/

namespace MindGit

/-- A chat message as used by the server: `role` and `content` are the
only fields the server reads (`m.role`, `m.content` in the summarize
transcript); other client-side fields are opaque passthrough. -/
structure Message where
  role : String
  content : String
  deriving DecidableEq, Repr

/-- A pending deep-dive fragment; opaque passthrough for the server. -/
structure Fragment where
  id : String
  messageId : String
  text : String
  deriving DecidableEq, Repr

/-- The parsed `session.json` document, with exactly the fields the
`POST /api/sessions` handler destructures from the request body and
writes back.  JS `undefined`/`null` fields are modelled as `none`;
an absent `messages` field is modelled as `[]` (the server treats
`!session.messages` and `messages.length === 0` identically). -/
structure Session where
  id : String
  title : Option String
  parentId : Option String
  messages : List Message
  pendingFragments : List Fragment
  isExpanded : Option Bool
  summary : Option String
  originTerm : Option String
  originHighlightId : Option String
  lastSummarizedMessageCount : Option Nat
  deriving DecidableEq, Repr

/-- A directory node in the sessions tree: name, parsed document
(`none` = unreadable/malformed `session.json`), subdirectories. -/
inductive Dir : Type where
  | mk (name : String) (doc : Option Session) (children : List Dir)

/-- The storage root: the list of directories under `SESSIONS_DIR`. -/
abbrev Tree := List Dir

def Dir.name : Dir → String
  | .mk n _ _ => n

def Dir.doc : Dir → Option Session
  | .mk _ d _ => d

def Dir.children : Dir → List Dir
  | .mk _ _ c => c

/-- Source `findSessionPath(sessionId, currentDir)` (src/server.js:35–50):
depth-first search over the entries of `currentDir`; a directory whose
name matches is returned before its own subtree or later siblings are
searched.  We return the directory found (the node at the returned
path) rather than the path string. -/
def findSession (sid : String) : Tree → Option Dir
  | [] => none
  | .mk n doc c :: rest =>
    if n = sid then some (.mk n doc c)
    else
      match findSession sid c with
      | some f => some f
      | none => findSession sid rest

/-- Source `getAllSessions(dir)` (src/server.js:52–77): collect every parseable
document, parent before children, skipping a directory — subtree
included, since the recursive call sits inside the `try` — whenever its
document cannot be read or parsed. -/
def getAllSessions : Tree → List Session
  | [] => []
  | .mk _ doc c :: rest =>
    (match doc with
     | some s => s :: getAllSessions c
     | none => []) ++ getAllSessions rest

/-- The sessions listed for a single directory subtree. -/
def dirSessions (d : Dir) : List Session := getAllSessions [d]

/-- Every directory name in the tree, in depth-first order.  Models the
set of ids that `findSessionPath` can resolve. -/
def dirNames : Tree → List String
  | [] => []
  | .mk n _ c :: rest => n :: (dirNames c ++ dirNames rest)

/-- JS truthiness of an optional string field (`if (x)`, `x || null`):
`null`/`undefined` and the empty string are falsy. -/
def strTruthy : Option String → Option String
  | some s => if s = "" then none else some s
  | none => none

/-- JS `x || dflt` on an optional string: the default replaces both a
missing field and an empty string. -/
def jsOr (o : Option String) (dflt : String) : String :=
  match o with
  | some s => if s = "" then dflt else s
  | none => dflt

/-- Source `fs.rm(sessionPath, ...recursive...)` at the path
returned by `findSessionPath` (src/server.js:128–132), fused with the
search: the first directory in `findSessionPath`'s DFS order whose name
is `sid` is removed together with its whole subtree.  Identity when the
id does not resolve (the endpoint returns 404 before calling `rm`). -/
def removeFound (sid : String) : Tree → Tree
  | [] => []
  | .mk n doc c :: rest =>
    if n = sid then rest
    else
      match findSession sid c with
      | some _ => .mk n doc (removeFound sid c) :: rest
      | none => .mk n doc c :: removeFound sid rest

/-- Source `fs.writeFile(path.join(sessionPath, 'session.json'), ...)` at the
path returned by `findSessionPath`, fused with the search: the first
directory in `findSessionPath`'s DFS order whose name is `sid` has its
document replaced by `nd`; children are untouched.  Identity when the
id does not resolve. -/
def writeFound (sid : String) (nd : Session) : Tree → Tree
  | [] => []
  | .mk n doc c :: rest =>
    if n = sid then .mk n (some nd) c :: rest
    else
      match findSession sid c with
      | some _ => .mk n doc (writeFound sid nd c) :: rest
      | none => .mk n doc c :: writeFound sid nd rest

/-- Result of `DELETE /api/sessions/:id` (src/server.js:126–138):
`ok = false` is the 404 NotFound response. -/
structure DeleteResult where
  ok : Bool
  tree : Tree

/-- Endpoint `DELETE /api/sessions/:id`: resolve via `findSessionPath`, 404 if
absent, else recursive removal. -/
def deleteSession (sid : String) (t : Tree) : DeleteResult :=
  match findSession sid t with
  | none => ⟨false, t⟩
  | some _ => ⟨true, removeFound sid t⟩

/-- Source `mkdir` + `writeFile` of `session.json` under a target directory
(src/server.js:103–117): if a child named `cid` already exists its
document is overwritten and its children kept (the `fs.access` /
`fs.mkdir` dance makes directory creation idempotent); otherwise a
fresh directory is created. -/
def upsertChild (cid : String) (data : Session) : Tree → Tree
  | [] => [.mk cid (some data) []]
  | .mk n doc c :: rest =>
    if n = cid then .mk n (some data) c :: rest
    else .mk n doc c :: upsertChild cid data rest

/-- Helper: `upsertChild` applied inside the directory found for `pid`, fused
with the `findSessionPath` search as in `writeFound`. -/
def createUnder (pid cid : String) (data : Session) : Tree → Tree
  | [] => []
  | .mk n doc c :: rest =>
    if n = pid then .mk n doc (upsertChild cid data c) :: rest
    else
      match findSession pid c with
      | some _ => .mk n doc (createUnder pid cid data c) :: rest
      | none => .mk n doc c :: createUnder pid cid data rest

/-- Result of `POST /api/sessions` (src/server.js:89–124): `ok = false`
is the 404 "Parent session not found" response. -/
structure CreateResult where
  ok : Bool
  tree : Tree

/-- Endpoint `POST /api/sessions`: the body's fields are destructured and
written back verbatim as `sessionData`.  `if (parentId)` is a JS
truthiness test, so a missing, `null` or empty-string `parentId`
targets the storage root; otherwise the parent must resolve via
`findSessionPath` or the request 404s with nothing written. -/
def createSession (body : Session) (t : Tree) : CreateResult :=
  match strTruthy body.parentId with
  | none => ⟨true, upsertChild body.id body t⟩
  | some pid =>
    match findSession pid t with
    | none => ⟨false, t⟩
    | some _ => ⟨true, createUnder pid body.id body t⟩

/-- The upstream summarization call (src/server.js:173–199), abstracted:
`err` covers a network error or a non-ok HTTP status (both throw),
`ok content` an HTTP success whose extracted
`data.choices?.[0]?.message?.content` is `content` (`none` when the
response carries no choices / message / content). -/
inductive UpstreamSummary where
  | err
  | ok (content : Option String)

/-- Observable outcome of `POST /api/sessions/:id/summarize`:
`notFound` is the 404; `skipped` the `{summary, messageCount,
skipped: true}` responses of lines 154 and 161; `success` the
`{success: true, summary, messageCount, skipped: false}` response;
`failed` the catch-all 500 (thrown by an unreadable document or by an
upstream failure). -/
inductive SummarizeOutcome where
  | notFound
  | skipped (summary : String) (messageCount : Nat)
  | success (summary : String) (messageCount : Nat)
  | failed
  deriving DecidableEq, Repr

/-- Result of a summarize request: outcome, whether the upstream model
was contacted, and the storage tree afterwards. -/
structure SummarizeResult where
  outcome : SummarizeOutcome
  upstreamCalled : Bool
  tree : Tree

/-- Endpoint `POST /api/sessions/:id/summarize` (src/server.js:140–217).
The upstream reply the model would give is passed in as `up`;
`upstreamCalled` records whether the `fetch` was reached.  Gating:
zero messages → skip; `messages.length <= (lastSummarizedMessageCount
|| 0)` → skip with the stored `summary || ''`; otherwise contact
upstream, and on success overwrite `summary` and set
`lastSummarizedMessageCount = messages.length` in the stored document
(all other fields preserved by the read–modify–write). -/
def summarize (up : UpstreamSummary) (sid : String) (t : Tree) : SummarizeResult :=
  match findSession sid t with
  | none => ⟨.notFound, false, t⟩
  | some d =>
    match d.doc with
    | none => ⟨.failed, false, t⟩
    | some s =>
      if s.messages.length = 0 then ⟨.skipped "" 0, false, t⟩
      else if s.messages.length ≤ s.lastSummarizedMessageCount.getD 0 then
        ⟨.skipped (jsOr s.summary "") s.messages.length, false, t⟩
      else
        match up with
        | .err => ⟨.failed, true, t⟩
        | .ok content =>
          let newSummary := jsOr content ""
          let s' := { s with summary := some newSummary,
                             lastSummarizedMessageCount := some s.messages.length }
          ⟨.success newSummary s.messages.length, true, writeFound sid s' t⟩

/-- One element of the context chain (src/server.js:234–238):
`session.title || 'Без названия'`, `session.summary || ''`,
`session.originTerm || null`. -/
structure ChainItem where
  title : String
  summary : String
  originTerm : Option String
  deriving DecidableEq, Repr

def chainItem (s : Session) : ChainItem :=
  ⟨jsOr s.title "Без названия", jsOr s.summary "", strTruthy s.originTerm⟩

/-- Source `buildContextChain(sessionId)` (src/server.js:221–248): walk
`parentId` references upward while the current id is truthy, resolving
each via `findSessionPath`; an unresolvable id or an unreadable
document breaks the loop, keeping the entries collected so far; each
visited node is `unshift`ed, i.e. prepended.  The source loop has no
bound and diverges on a `parentId` cycle; `fuel` bounds the walk, and
every theorem holds for arbitrary fuel. -/
def buildContextChain (t : Tree) : Nat → Option String → List ChainItem
  | 0, _ => []
  | fuel + 1, cur =>
    match strTruthy cur with
    | none => []
    | some cid =>
      match findSession cid t with
      | none => []
      | some d =>
        match d.doc with
        | none => []
        | some s => buildContextChain t fuel s.parentId ++ [chainItem s]

/-- The walk of `buildContextChain` in visit order (target first,
oldest ancestor last), following the spec's description of the walk;
`buildContextChain` is proved to be its reversal (root-to-leaf order). -/
def chainVisit (t : Tree) : Nat → Option String → List ChainItem
  | 0, _ => []
  | fuel + 1, cur =>
    match strTruthy cur with
    | none => []
    | some cid =>
      match findSession cid t with
      | none => []
      | some d =>
        match d.doc with
        | none => []
        | some s => chainItem s :: chainVisit t fuel s.parentId

/-- One rendered entry of the synthetic context message
(src/server.js:269–282): the origin term line (skipped for the first
item), the numbered title line, then the summary or the
"not yet concluded" placeholder (the latter only for non-final items). -/
def contextEntry (len idx : Nat) (item : ChainItem) : String :=
  (if 0 < idx then
     match item.originTerm with
     | some term => "→ Пользователь углубился в термин: \"" ++ term ++ "\"\n\n"
     | none => ""
   else "") ++
  toString (idx + 1) ++ ". Тема: \"" ++ item.title ++ "\"\n" ++
  (if item.summary ≠ "" then "   Краткое содержание: " ++ item.summary ++ "\n\n"
   else if idx + 1 < len then "   (ещё не завершено)\n\n"
   else "")

/-- The full text of the synthetic system-context message
(src/server.js:267–282). -/
def contextText (chain : List ChainItem) : String :=
  "Контекст беседы (путь углубления в тему):\n\n" ++
  String.join (chain.enum.map fun p => contextEntry chain.length p.1 p.2)

/-- Observable outcome of `POST /api/chat` up to the upstream request
(src/server.js:252–294): the 400 validation error, or the message list
actually forwarded upstream. -/
inductive ChatOutcome where
  | badRequest
  | forwarded (apiMessages : List Message)
  deriving DecidableEq, Repr

/-- Endpoint `POST /api/chat` message assembly: validates `messages` non-empty,
builds the context chain when `sessionId` is truthy, and prepends the
synthetic system message only when the chain has more than one
element.  `fuel` bounds the context walk as in `buildContextChain`. -/
def chatApiMessages (fuel : Nat) (sessionId : Option String)
    (messages : List Message) (t : Tree) : ChatOutcome :=
  if messages.isEmpty then .badRequest
  else
    let contextMessage : Option Message :=
      match strTruthy sessionId with
      | none => none
      | some sid =>
        let chain := buildContextChain t fuel (some sid)
        if 1 < chain.length then some ⟨"system", contextText chain⟩ else none
    match contextMessage with
    | none => .forwarded messages
    | some m => .forwarded (m :: messages)

/-- An event written to the downstream SSE response during streaming:
a relayed parsed chunk, or the terminal `[DONE]` marker. -/
inductive StreamEvent (J : Type) where
  | data (payload : J)
  | done
  deriving DecidableEq, Repr

/-- JS `line.startsWith('data: ')`, computed on the character data (a
string starts with a prefix iff its character list does). -/
def strStartsWith (s p : String) : Bool := p.data.isPrefixOf s.data

/-- JS `line.slice(n)` for an ASCII prefix: drop the first `n`
characters. -/
def strSlice (n : Nat) (s : String) : String := ⟨s.data.drop n⟩

/-- The streaming relay loop of `POST /api/chat`
(src/server.js:334–358), over the flattened sequence of lines (each
upstream chunk is split on newlines and its lines processed in order,
so the loop is equivalent to one pass over the concatenation).  A line
not starting with `data: ` is ignored; `data: [DONE]` emits the
terminal marker and stops; any other payload is `JSON.parse`d —
abstracted as the oracle `parse` — and relayed on success, silently
dropped on failure.  `J` is the type of parsed JSON values. -/
def relayStreamLines {J : Type} (parse : String → Option J) :
    List String → List (StreamEvent J)
  | [] => []
  | line :: rest =>
    if strStartsWith line "data: " then
      let d := strSlice 6 line
      if d = "[DONE]" then [.done]
      else
        match parse d with
        | some j => .data j :: relayStreamLines parse rest
        | none => relayStreamLines parse rest
    else relayStreamLines parse rest

/-- The client send flow (src/public/app.js: `messages.push(...)`
followed by `saveSession`, a full-document upsert of the in-memory
copy over `POST /api/sessions`), seen from the store: the stored
document gains one message at the end and every other field is
unchanged.  No-op when the id does not resolve or the document is
unreadable. -/
def appendMessage (sid : String) (m : Message) (t : Tree) : Tree :=
  match findSession sid t with
  | none => t
  | some d =>
    match d.doc with
    | none => t
    | some s => writeFound sid { s with messages := s.messages ++ [m] } t

/-- The stored document of a session id, when the id resolves and the
document parses. -/
def getDoc (sid : String) (t : Tree) : Option Session :=
  match findSession sid t with
  | none => none
  | some d => d.doc

/-- One store-affecting step of the system: a client message append or
a summarize request (with an arbitrary upstream reply). -/
inductive Step : Tree → Tree → Prop where
  | append (sid : String) (m : Message) (t : Tree) : Step t (appendMessage sid m t)
  | summar (up : UpstreamSummary) (sid : String) (t : Tree) :
      Step t ((summarize up sid t).tree)

/-- The document written back by a successful summarization
(src/server.js:202–204): `summary` overwritten,
`lastSummarizedMessageCount` set to the current message count, all
other fields preserved. -/
def summarized (s : Session) (sum : String) : Session :=
  { s with summary := some sum,
           lastSummarizedMessageCount := some s.messages.length }

/-- A concrete session whose summary is current: one message,
`lastSummarizedMessageCount = 1`. -/
def sampleCurrent : Session :=
  { id := "a", title := some "t", parentId := none,
    messages := [⟨"user", "hi"⟩], pendingFragments := [],
    isExpanded := none, summary := some "done", originTerm := none,
    originHighlightId := none, lastSummarizedMessageCount := some 1 }

/-- A one-directory store holding `sampleCurrent` under id `a`. -/
def sampleTreeCurrent : Tree := [.mk "a" (some sampleCurrent) []]

/-- A concrete session eligible for summarization: one message,
`lastSummarizedMessageCount = 0`. -/
def sampleStale : Session :=
  { id := "a", title := some "t", parentId := none,
    messages := [⟨"user", "hi"⟩], pendingFragments := [],
    isExpanded := none, summary := some "old", originTerm := none,
    originHighlightId := none, lastSummarizedMessageCount := some 0 }

/-- A one-directory store holding `sampleStale` under id `a`. -/
def sampleTreeStale : Tree := [.mk "a" (some sampleStale) []]

/-- Root session of the concrete root→child→grandchild scenario. -/
def sampleR : Session :=
  { sampleCurrent with
      id := "R", parentId := none,
      title := some "root", summary := some "s1" }

/-- Child session of the concrete scenario, parent `R`. -/
def sampleC : Session :=
  { sampleCurrent with
      id := "C", parentId := some "R",
      title := some "mid", summary := some "s2", originTerm := some "term1" }

/-- Grandchild session of the concrete scenario, parent `C`. -/
def sampleG : Session :=
  { sampleCurrent with
      id := "G", parentId := some "C",
      title := some "leaf", summary := some "s3", originTerm := some "term2" }

/-- The nested store `R/C/G`: grandchild inside child inside root. -/
def sampleTreeRCG : Tree :=
  [.mk "R" (some sampleR) [.mk "C" (some sampleC) [.mk "G" (some sampleG) []]]]

/-! ## Basic lemmas about the tree structure -/

/-- Nested induction principle for session trees: the motive holds of
`[]` and is preserved by consing a directory whose children already
satisfy it. -/
theorem treeInd {motive : Tree → Prop} (h0 : motive [])
    (h1 : ∀ n doc c rest, motive c → motive rest → motive (.mk n doc c :: rest)) :
    ∀ t : Tree, motive t
  | [] => h0
  | .mk n doc c :: rest => h1 n doc c rest (treeInd h0 h1 c) (treeInd h0 h1 rest)

theorem getAllSessions_cons (d : Dir) (rest : Tree) :
    getAllSessions (d :: rest) = dirSessions d ++ getAllSessions rest := by
  cases d with
  | mk n doc c => cases doc <;> simp [getAllSessions, dirSessions]

theorem dirNames_cons (d : Dir) (rest : Tree) :
    dirNames (d :: rest) = dirNames [d] ++ dirNames rest := by
  cases d with
  | mk n doc c => simp [dirNames]

theorem findSession_eq_none_iff (sid : String) (t : Tree) :
    findSession sid t = none ↔ sid ∉ dirNames t := by
  induction t using treeInd with
  | h0 => simp [findSession, dirNames]
  | h1 n doc c rest ihc ihr =>
    simp only [findSession, dirNames, List.mem_cons, List.mem_append]
    by_cases h : n = sid
    · simp [h]
    · simp only [if_neg h]
      have hns : ¬ sid = n := fun h' => h h'.symm
      cases hc : findSession sid c with
      | some f =>
        have hmem : sid ∈ dirNames c := by
          by_contra hnot
          have := ihc.mpr hnot
          rw [hc] at this
          cases this
        simp [hmem]
      | none =>
        simp [ihr, ihc.mp hc, hns]

theorem dirNames_writeFound (sid : String) (nd : Session) (t : Tree) :
    dirNames (writeFound sid nd t) = dirNames t := by
  induction t using treeInd with
  | h0 => simp [writeFound]
  | h1 n doc c rest ihc ihr =>
    by_cases hn : n = sid
    · simp [writeFound, hn, dirNames]
    · simp only [writeFound, if_neg hn]
      cases hc : findSession sid c with
      | some f => simp [dirNames, ihc]
      | none => simp [dirNames, ihr]

theorem findSession_writeFound_none_iff (sid' sid : String) (nd : Session)
    (t : Tree) :
    findSession sid' (writeFound sid nd t) = none ↔ findSession sid' t = none := by
  rw [findSession_eq_none_iff, findSession_eq_none_iff, dirNames_writeFound]

theorem getDoc_writeFound_self (sid : String) (nd : Session) (t : Tree)
    (h : (findSession sid t).isSome) :
    getDoc sid (writeFound sid nd t) = some nd := by
  induction t using treeInd with
  | h0 => simp [findSession] at h
  | h1 n doc c rest ihc ihr =>
    by_cases hn : n = sid
    · subst hn
      simp [writeFound, getDoc, findSession, Dir.doc]
    · simp only [findSession, Dir.name, if_neg hn] at h
      simp only [writeFound, Dir.name, if_neg hn]
      cases hc : findSession sid c with
      | some f =>
        have ih := ihc (by simp [hc])
        simp only [hc]
        simp only [getDoc, findSession, Dir.name, if_neg hn] at ih ⊢
        cases hw : findSession sid (writeFound sid nd c) with
        | some d' => rw [hw] at ih; simpa using ih
        | none => rw [hw] at ih; cases ih
      | none =>
        rw [hc] at h
        have ih := ihr (by simpa using h)
        simp only [hc]
        simp only [getDoc, findSession, Dir.name, if_neg hn, hc] at ih ⊢
        exact ih

theorem getDoc_writeFound_ne (sid' sid : String) (nd : Session) (t : Tree)
    (h : sid' ≠ sid) :
    getDoc sid' (writeFound sid nd t) = getDoc sid' t := by
  induction t using treeInd with
  | h0 => simp [writeFound]
  | h1 n doc c rest ihc ihr =>
    by_cases hn : n = sid
    · have hns : ¬ n = sid' := fun hh => h (hh.symm.trans hn)
      simp only [writeFound, if_pos hn, getDoc, findSession, if_neg hns]
    · simp only [writeFound, if_neg hn]
      by_cases hns : n = sid'
      · cases hc : findSession sid c with
        | some f => simp [getDoc, findSession, hns, Dir.doc]
        | none => simp [getDoc, findSession, hns, Dir.doc]
      · cases hc : findSession sid c with
        | some f =>
          simp only [getDoc, findSession, if_neg hns] at ihc ⊢
          cases hw : findSession sid' c with
          | some g =>
            cases hw' : findSession sid' (writeFound sid nd c) with
            | none =>
              rw [findSession_writeFound_none_iff, hw] at hw'
              cases hw'
            | some g' =>
              rw [hw, hw'] at ihc
              simp only [hw, hw']
              exact ihc
          | none =>
            have hwn : findSession sid' (writeFound sid nd c) = none :=
              (findSession_writeFound_none_iff sid' sid nd c).mpr hw
            simp only [hw, hwn]
        | none =>
          simp only [getDoc, findSession, if_neg hns] at ihr ⊢
          cases hw : findSession sid' c with
          | some g => simp [hw]
          | none => simp only [hw]; exact ihr

theorem names_split_of_found (sid : String) (t : Tree) (d : Dir)
    (h : findSession sid t = some d) :
    ∃ pre post, dirNames t = pre ++ dirNames [d] ++ post ∧
      dirNames (removeFound sid t) = pre ++ post := by
  induction t using treeInd with
  | h0 => simp [findSession] at h
  | h1 n doc c rest ihc ihr =>
    by_cases hn : n = sid
    · simp only [findSession, if_pos hn] at h
      obtain rfl : Dir.mk n doc c = d := by injection h
      refine ⟨[], dirNames rest, ?_, ?_⟩
      · simp [dirNames]
      · simp [removeFound, if_pos hn]
    · simp only [findSession, if_neg hn] at h
      cases hc : findSession sid c with
      | some f =>
        rw [hc] at h
        obtain rfl : f = d := by injection h
        obtain ⟨pre, post, h1, h2⟩ := ihc hc
        refine ⟨n :: pre, post ++ dirNames rest, ?_, ?_⟩
        · simp [dirNames, h1]
        · simp [removeFound, if_neg hn, hc, dirNames, h2]
      | none =>
        rw [hc] at h
        obtain ⟨pre, post, h1, h2⟩ := ihr h
        refine ⟨n :: dirNames c ++ pre, post, ?_, ?_⟩
        · simp [dirNames, h1]
        · simp [removeFound, if_neg hn, hc, dirNames, h2]

theorem sessions_split_of_found (sid : String) (t : Tree) (d : Dir)
    (h : findSession sid t = some d) :
    ∃ pre mid post, getAllSessions t = pre ++ mid ++ post ∧
      getAllSessions (removeFound sid t) = pre ++ post ∧
      (mid = dirSessions d ∨ mid = []) := by
  induction t using treeInd with
  | h0 => simp [findSession] at h
  | h1 n doc c rest ihc ihr =>
    by_cases hn : n = sid
    · simp only [findSession, if_pos hn] at h
      obtain rfl : Dir.mk n doc c = d := by injection h
      refine ⟨[], dirSessions (.mk n doc c), getAllSessions rest, ?_, ?_, Or.inl rfl⟩
      · simp [getAllSessions_cons]
      · simp [removeFound, if_pos hn]
    · simp only [findSession, if_neg hn] at h
      cases hc : findSession sid c with
      | some f =>
        rw [hc] at h
        obtain rfl : f = d := by injection h
        obtain ⟨pre, mid, post, h1, h2, h3⟩ := ihc hc
        cases doc with
        | some s =>
          refine ⟨s :: pre, mid, post ++ getAllSessions rest, ?_, ?_, h3⟩
          · simp [getAllSessions, h1]
          · simp [removeFound, if_neg hn, hc, getAllSessions, h2]
        | none =>
          refine ⟨[], [], getAllSessions rest, ?_, ?_, Or.inr rfl⟩
          · simp [getAllSessions]
          · simp [removeFound, if_neg hn, hc, getAllSessions]
      | none =>
        rw [hc] at h
        obtain ⟨pre, mid, post, h1, h2, h3⟩ := ihr h
        refine ⟨dirSessions (.mk n doc c) ++ pre, mid, post, ?_, ?_, h3⟩
        · simp [getAllSessions_cons, h1]
        · simp [removeFound, if_neg hn, hc, getAllSessions_cons, h2]

/-! ## Claim theorems -/

/-- C1: for a persisted conversation, `summarize` contacts the upstream
model exactly when there is at least one message and `messages.length`
is strictly greater than `lastSummarizedMessageCount`; with zero
messages it returns the skipped result `{summary: '', messageCount: 0}`,
and when the length is not greater it returns a skipped result carrying
the stored summary; in both cases no upstream call is made and the
stored tree is unchanged, so a second summarize call in the same state
is skipped again with no side effects. -/
theorem summarize_gating_idempotent (up up2 : UpstreamSummary) (sid : String)
    (t : Tree) (d : Dir) (s : Session)
    (hf : findSession sid t = some d) (hd : d.doc = some s) :
    ((summarize up sid t).upstreamCalled = true ↔
        s.messages ≠ [] ∧ s.lastSummarizedMessageCount.getD 0 < s.messages.length)
    ∧ (s.messages = [] →
        summarize up sid t = ⟨.skipped "" 0, false, t⟩)
    ∧ (s.messages ≠ [] → s.messages.length ≤ s.lastSummarizedMessageCount.getD 0 →
        summarize up sid t = ⟨.skipped (jsOr s.summary "") s.messages.length, false, t⟩)
    ∧ (s.messages.length ≤ s.lastSummarizedMessageCount.getD 0 →
        (summarize up sid t).tree = t ∧
        (summarize up sid t).upstreamCalled = false ∧
        (∃ sum cnt, (summarize up sid t).outcome = .skipped sum cnt) ∧
        (summarize up2 sid ((summarize up sid t).tree)).tree = t ∧
        (summarize up2 sid ((summarize up sid t).tree)).upstreamCalled = false ∧
        (∃ sum cnt,
          (summarize up2 sid ((summarize up sid t).tree)).outcome = .skipped sum cnt)) := by
  have eq0 : ∀ u : UpstreamSummary, s.messages = [] →
      summarize u sid t = ⟨.skipped "" 0, false, t⟩ := by
    intro u h0
    simp [summarize, hf, hd, h0]
  have eqle : ∀ u : UpstreamSummary, s.messages ≠ [] →
      s.messages.length ≤ s.lastSummarizedMessageCount.getD 0 →
      summarize u sid t = ⟨.skipped (jsOr s.summary "") s.messages.length, false, t⟩ := by
    intro u hne hle
    have h0 : ¬ s.messages.length = 0 := by simpa using hne
    simp [summarize, hf, hd, h0, hle]
  have eqskip : ∀ u : UpstreamSummary,
      s.messages.length ≤ s.lastSummarizedMessageCount.getD 0 →
      summarize u sid t = ⟨.skipped "" 0, false, t⟩ ∨
      summarize u sid t = ⟨.skipped (jsOr s.summary "") s.messages.length, false, t⟩ := by
    intro u hle
    by_cases hne : s.messages = []
    · exact Or.inl (eq0 u hne)
    · exact Or.inr (eqle u hne hle)
  refine ⟨?_, eq0 up, eqle up, ?_⟩
  · by_cases h0 : s.messages.length = 0
    · have hne : s.messages = [] := List.length_eq_zero.mp h0
      simp [eq0 up hne, hne]
    · by_cases hle : s.messages.length ≤ s.lastSummarizedMessageCount.getD 0
      · have hne : s.messages ≠ [] := fun hh => h0 (by simp [hh])
        simp [eqle up hne hle, hne]
        omega
      · constructor
        · intro _
          refine ⟨fun hh => h0 (by simp [hh]), by omega⟩
        · intro _
          cases up <;> simp [summarize, hf, hd, h0, hle]
  · intro hle
    have base : (summarize up sid t).tree = t ∧
        (summarize up sid t).upstreamCalled = false ∧
        (∃ sum cnt, (summarize up sid t).outcome = .skipped sum cnt) := by
      rcases eqskip up hle with heq | heq <;>
        exact ⟨by rw [heq], by rw [heq], _, _, by rw [heq]⟩
    refine ⟨base.1, base.2.1, base.2.2, ?_, ?_, ?_⟩
    · rw [base.1]
      rcases eqskip up2 hle with heq | heq <;> rw [heq]
    · rw [base.1]
      rcases eqskip up2 hle with heq | heq <;> rw [heq]
    · rw [base.1]
      rcases eqskip up2 hle with heq | heq <;> exact ⟨_, _, by rw [heq]⟩

/-- Witness for C1 at `sampleTreeCurrent`: the call is skipped with the
stored summary, upstream untouched. -/
theorem summarize_gating_idempotent_witness :
    (summarize .err "a" sampleTreeCurrent).upstreamCalled = false ∧
    summarize .err "a" sampleTreeCurrent =
      ⟨.skipped "done" 1, false, sampleTreeCurrent⟩ := by
  have h := summarize_gating_idempotent .err .err "a" sampleTreeCurrent
    (.mk "a" (some sampleCurrent) []) sampleCurrent
    (by simp [sampleTreeCurrent, findSession]) rfl
  refine ⟨?_, ?_⟩
  · exact (h.2.2.2 (by decide)).2.1
  · simpa [jsOr, sampleCurrent] using
      h.2.2.1 (by decide) (by decide)

/-- C4: a create/upsert whose `parentId` is truthy but does not resolve
to a stored conversation fails with the 404 NotFound response and
leaves the storage tree exactly as it was: no directory is created and
no document is written. -/
theorem create_missing_parent_notfound (body : Session) (t : Tree) (pid : String)
    (hp : strTruthy body.parentId = some pid)
    (hf : findSession pid t = none) :
    createSession body t = ⟨false, t⟩ := by
  simp [createSession, hp, hf]

/-- Witness for C4: creating under parent `"nonexistent"` in the
one-session store fails and writes nothing. -/
theorem create_missing_parent_notfound_witness :
    createSession { sampleCurrent with id := "b", parentId := some "nonexistent" }
      sampleTreeCurrent = ⟨false, sampleTreeCurrent⟩ :=
  create_missing_parent_notfound _ _ "nonexistent" (by decide)
    (by simp [sampleTreeCurrent, findSession])

/-- C5: when a conversation is eligible for summarization but the
upstream completion request fails (network error or non-ok status, both
of which throw), the endpoint answers with the summarization-failed
error and the storage tree — in particular the stored document, its
`summary` and its `lastSummarizedMessageCount` — is left exactly as it
was. -/
theorem summarize_upstream_failure_no_partial_update (sid : String) (t : Tree)
    (d : Dir) (s : Session)
    (hf : findSession sid t = some d) (hd : d.doc = some s)
    (hne : s.messages ≠ [])
    (hgt : s.lastSummarizedMessageCount.getD 0 < s.messages.length) :
    summarize .err sid t = ⟨.failed, true, t⟩ ∧
    getDoc sid (summarize .err sid t).tree = some s := by
  have h0 : ¬ s.messages.length = 0 := by simpa using hne
  have hle : ¬ s.messages.length ≤ s.lastSummarizedMessageCount.getD 0 := by omega
  have heq : summarize .err sid t = ⟨.failed, true, t⟩ := by
    simp [summarize, hf, hd, h0, hle]
  exact ⟨heq, by rw [heq]; simp [getDoc, hf, hd]⟩

/-- Witness for C5 at `sampleTreeStale`. -/
theorem summarize_upstream_failure_no_partial_update_witness :
    summarize .err "a" sampleTreeStale = ⟨.failed, true, sampleTreeStale⟩ ∧
    getDoc "a" (summarize .err "a" sampleTreeStale).tree = some sampleStale :=
  summarize_upstream_failure_no_partial_update "a" sampleTreeStale
    (.mk "a" (some sampleStale) []) sampleStale
    (by simp [sampleTreeStale, findSession]) rfl
    (by decide) (by decide)

/-- C10: when the upstream summarization request succeeds over HTTP but
its payload carries no usable message content (`choices[0].message
.content` missing or empty, so the `|| ''` default applies), the
endpoint reports success with an empty summary, persists `summary = ''`
and `lastSummarizedMessageCount = messages.length`, and every
subsequent summarize call in that state is skipped with the empty
summary. -/
theorem summarize_empty_content_persists_empty (sid : String) (t : Tree)
    (d : Dir) (s : Session) (content : Option String)
    (hf : findSession sid t = some d) (hd : d.doc = some s)
    (hne : s.messages ≠ [])
    (hgt : s.lastSummarizedMessageCount.getD 0 < s.messages.length)
    (hc : jsOr content "" = "") :
    (summarize (.ok content) sid t).outcome = .success "" s.messages.length ∧
    getDoc sid (summarize (.ok content) sid t).tree = some (summarized s "") ∧
    (∀ up2 : UpstreamSummary,
      summarize up2 sid ((summarize (.ok content) sid t).tree) =
        ⟨.skipped "" s.messages.length, false,
          (summarize (.ok content) sid t).tree⟩) := by
  have h0 : ¬ s.messages.length = 0 := by simpa using hne
  have hle : ¬ s.messages.length ≤ s.lastSummarizedMessageCount.getD 0 := by omega
  have heq : summarize (.ok content) sid t =
      ⟨.success (jsOr content "") s.messages.length, true,
        writeFound sid (summarized s (jsOr content "")) t⟩ := by
    simp [summarize, hf, hd, h0, hle, summarized]
  rw [hc] at heq
  have hdoc : getDoc sid (summarize (.ok content) sid t).tree =
      some (summarized s "") := by
    rw [heq]
    exact getDoc_writeFound_self sid _ t (by simp [hf])
  refine ⟨by rw [heq], hdoc, ?_⟩
  intro up2
  obtain ⟨d', hf', hd'⟩ : ∃ d', findSession sid (summarize (.ok content) sid t).tree
      = some d' ∧ d'.doc = some (summarized s "") := by
    revert hdoc
    unfold getDoc
    cases hds : findSession sid (summarize (.ok content) sid t).tree with
    | none => intro hh; cases hh
    | some d' => exact fun hh => ⟨d', rfl, hh⟩
  have hlen : ¬ (summarized s "").messages.length = 0 := by
    simpa [summarized] using h0
  set t2 := (summarize (.ok content) sid t).tree with ht2
  simp [summarize, hf', hd', hlen, jsOr, summarized]
  intro hh
  simp [hh]

/-- Witness for C10 at `sampleTreeStale` with an upstream success
carrying no content. -/
theorem summarize_empty_content_persists_empty_witness :
    (summarize (.ok none) "a" sampleTreeStale).outcome = .success "" 1 ∧
    getDoc "a" (summarize (.ok none) "a" sampleTreeStale).tree =
      some (summarized sampleStale "") ∧
    (∀ up2 : UpstreamSummary,
      summarize up2 "a" ((summarize (.ok none) "a" sampleTreeStale).tree) =
        ⟨.skipped "" 1, false, (summarize (.ok none) "a" sampleTreeStale).tree⟩) := by
  have h := summarize_empty_content_persists_empty "a" sampleTreeStale
    (.mk "a" (some sampleStale) []) sampleStale none
    (by simp [sampleTreeStale, findSession]) rfl
    (by decide) (by decide) (by decide)
  simpa [sampleStale] using h

/-- C3: deleting an id that does not resolve fails with NotFound and
changes nothing; deleting an id that resolves removes the found
directory with everything nested beneath it — its whole block of
directory names disappears, the listing loses exactly that subtree's
contribution (or is unchanged when the subtree was already hidden
behind an unreadable ancestor document) and never gains entries — and,
when directory names are unique (as on a real filesystem), no id of
the deleted subtree resolves via `findSessionPath` afterwards. -/
theorem delete_cascades (sid : String) (t : Tree) :
    (findSession sid t = none → deleteSession sid t = ⟨false, t⟩) ∧
    (∀ d : Dir, findSession sid t = some d →
      deleteSession sid t = ⟨true, removeFound sid t⟩ ∧
      (∃ pre post, dirNames t = pre ++ dirNames [d] ++ post ∧
          dirNames (removeFound sid t) = pre ++ post) ∧
      (∃ pre mid post, getAllSessions t = pre ++ mid ++ post ∧
          getAllSessions (removeFound sid t) = pre ++ post ∧
          (mid = dirSessions d ∨ mid = [])) ∧
      (getAllSessions (removeFound sid t)).Sublist (getAllSessions t) ∧
      ((dirNames t).Nodup →
        ∀ n ∈ dirNames [d], findSession n (removeFound sid t) = none)) := by
  constructor
  · intro h
    simp [deleteSession, h]
  · intro d hf
    refine ⟨by simp [deleteSession, hf], names_split_of_found sid t d hf,
      sessions_split_of_found sid t d hf, ?_, ?_⟩
    · obtain ⟨pre, mid, post, h1, h2, _⟩ := sessions_split_of_found sid t d hf
      rw [h1, h2]
      exact ((List.sublist_append_right mid post).append_left pre).trans
        (by rw [List.append_assoc])
    · intro hnd n hn
      obtain ⟨pre, post, h1, h2⟩ := names_split_of_found sid t d hf
      rw [findSession_eq_none_iff, h2]
      rw [h1, List.append_assoc] at hnd
      obtain ⟨hpre, hrest, hdisj⟩ := List.nodup_append.mp hnd
      obtain ⟨hmid, hpost, hdisj2⟩ := List.nodup_append.mp hrest
      intro hmem
      rcases List.mem_append.mp hmem with hmem | hmem
      · exact hdisj hmem (List.mem_append_left _ hn)
      · exact hdisj2 hn hmem

/-- Witness for C3 at a nested root→child→grandchild store `R/C/G`:
the delete succeeds and the removal empties the tree. -/
theorem delete_cascades_witness :
    deleteSession "R" sampleTreeRCG = ⟨true, removeFound "R" sampleTreeRCG⟩ ∧
    removeFound "R" sampleTreeRCG = [] ∧
    findSession "C" (removeFound "R" sampleTreeRCG) = none := by
  have h := (delete_cascades "R" sampleTreeRCG).2
    (.mk "R" (some sampleR) [.mk "C" (some sampleC) [.mk "G" (some sampleG) []]])
    (by simp [sampleTreeRCG, findSession])
  refine ⟨h.1, ?_, ?_⟩
  · simp [sampleTreeRCG, removeFound]
  · exact h.2.2.2.2 (by simp [sampleTreeRCG, dirNames]) "C"
      (by simp [dirNames])

theorem summarize_cases (up : UpstreamSummary) (sid : String) (t : Tree) :
    ((summarize up sid t).tree = t ∧
      ∀ sum cnt, (summarize up sid t).outcome ≠ .success sum cnt) ∨
    ∃ d s content, findSession sid t = some d ∧ d.doc = some s ∧
      s.lastSummarizedMessageCount.getD 0 < s.messages.length ∧
      up = .ok content ∧
      (summarize up sid t).tree = writeFound sid (summarized s (jsOr content "")) t ∧
      (summarize up sid t).outcome = .success (jsOr content "") s.messages.length := by
  cases hf : findSession sid t with
  | none => left; simp [summarize, hf]
  | some d =>
    cases hd : d.doc with
    | none => left; simp [summarize, hf, hd]
    | some s =>
      by_cases h0 : s.messages.length = 0
      · left; simp [summarize, hf, hd, h0]
      · by_cases hle : s.messages.length ≤ s.lastSummarizedMessageCount.getD 0
        · left; simp [summarize, hf, hd, h0, hle]
        · cases up with
          | err => left; simp [summarize, hf, hd, h0, hle]
          | ok content =>
            right
            exact ⟨d, s, content, rfl, hd, by omega, rfl,
              by simp [summarize, hf, hd, h0, hle, summarized],
              by simp [summarize, hf, hd, h0, hle]⟩

theorem summarize_success_doc (up : UpstreamSummary) (sid : String) (t : Tree)
    (sum : String) (cnt : Nat)
    (h : (summarize up sid t).outcome = .success sum cnt) :
    ∃ s'', getDoc sid ((summarize up sid t).tree) = some s'' ∧
      s''.lastSummarizedMessageCount = some s''.messages.length := by
  rcases summarize_cases up sid t with ⟨_, hno⟩ | ⟨d, s, content, hf, _, _, _, htree, _⟩
  · exact absurd h (hno sum cnt)
  · refine ⟨summarized s (jsOr content ""), ?_, by simp [summarized]⟩
    rw [htree]
    exact getDoc_writeFound_self sid _ t (by simp [hf])

theorem getDoc_step (t t' : Tree) (h : Step t t') (sid : String) (s : Session)
    (hs : getDoc sid t = some s) :
    ∃ s', getDoc sid t' = some s' ∧
      s.lastSummarizedMessageCount.getD 0 ≤
        s'.lastSummarizedMessageCount.getD 0 := by
  cases h with
  | append sid' m t =>
    cases hf : findSession sid' t with
    | none =>
      simp only [appendMessage, hf]
      exact ⟨s, hs, le_refl _⟩
    | some d =>
      cases hd : d.doc with
      | none =>
        simp only [appendMessage, hf, hd]
        exact ⟨s, hs, le_refl _⟩
      | some s0 =>
        simp only [appendMessage, hf, hd]
        by_cases hsid : sid = sid'
        · subst hsid
          have hs0 : s0 = s := by
            have hds : getDoc sid t = some s0 := by simp [getDoc, hf, hd]
            rw [hs] at hds
            exact (Option.some.inj hds).symm
          subst hs0
          exact ⟨{ s0 with messages := s0.messages ++ [m] },
            getDoc_writeFound_self sid _ t (by simp [hf]), le_refl _⟩
        · rw [getDoc_writeFound_ne sid sid' _ t hsid]
          exact ⟨s, hs, le_refl _⟩
  | summar up sid' t =>
    rcases summarize_cases up sid' t with ⟨htree, _⟩ |
      ⟨d, s0, content, hf, hd, hlt, _, htree, _⟩
    · rw [htree]
      exact ⟨s, hs, le_refl _⟩
    · rw [htree]
      by_cases hsid : sid = sid'
      · subst hsid
        have hs0 : s0 = s := by
          have hds : getDoc sid t = some s0 := by simp [getDoc, hf, hd]
          rw [hs] at hds
          exact (Option.some.inj hds).symm
        subst hs0
        refine ⟨summarized s0 (jsOr content ""),
          getDoc_writeFound_self sid _ t (by simp [hf]), ?_⟩
        simp only [summarized, Option.getD_some]
        omega
      · rw [getDoc_writeFound_ne sid sid' _ t hsid]
        exact ⟨s, hs, le_refl _⟩

theorem getDoc_reachable (t t' : Tree) (h : Relation.ReflTransGen Step t t')
    (sid : String) (s : Session) (hs : getDoc sid t = some s) :
    ∃ s', getDoc sid t' = some s' ∧
      s.lastSummarizedMessageCount.getD 0 ≤
        s'.lastSummarizedMessageCount.getD 0 := by
  induction h with
  | refl => exact ⟨s, hs, le_refl _⟩
  | tail _ hstep ih =>
    obtain ⟨s1, hs1, hle1⟩ := ih
    obtain ⟨s2, hs2, hle2⟩ := getDoc_step _ _ hstep sid s1 hs1
    exact ⟨s2, hs2, hle1.trans hle2⟩

/-- C2: along any sequence of client message appends interleaved with
summarize calls, a stored conversation's `lastSummarizedMessageCount`
is non-decreasing, and immediately after every successful
summarization the stored document satisfies
`lastSummarizedMessageCount = messages.length` — so it never exceeds
`messages.length` at that point. -/
theorem lastSummarizedCount_monotone (t t' : Tree) (sid : String)
    (h : Relation.ReflTransGen Step t t') :
    (∀ s s', getDoc sid t = some s → getDoc sid t' = some s' →
        s.lastSummarizedMessageCount.getD 0 ≤
          s'.lastSummarizedMessageCount.getD 0)
    ∧ (∀ up sum cnt, (summarize up sid t').outcome = .success sum cnt →
        ∃ s'', getDoc sid ((summarize up sid t').tree) = some s'' ∧
          s''.lastSummarizedMessageCount = some s''.messages.length ∧
          s''.lastSummarizedMessageCount.getD 0 ≤ s''.messages.length) := by
  constructor
  · intro s s' hs hs'
    obtain ⟨s'', hs'', hle⟩ := getDoc_reachable t t' h sid s hs
    rw [hs'] at hs''
    obtain rfl : s' = s'' := by injection hs''
    exact hle
  · intro up sum cnt hsucc
    obtain ⟨s'', hs'', heq⟩ := summarize_success_doc up sid t' sum cnt hsucc
    exact ⟨s'', hs'', heq, by rw [heq]; simp⟩

/-- Witness for C2: the reflexive chain at `sampleTreeStale`, plus a
successful summarization whose write equates the high-water mark with
the message count. -/
theorem lastSummarizedCount_monotone_witness :
    sampleStale.lastSummarizedMessageCount.getD 0 ≤
      sampleStale.lastSummarizedMessageCount.getD 0 ∧
    (∃ s'', getDoc "a" ((summarize (.ok (some "new")) "a" sampleTreeStale).tree)
        = some s'' ∧
      s''.lastSummarizedMessageCount = some s''.messages.length ∧
      s''.lastSummarizedMessageCount.getD 0 ≤ s''.messages.length) := by
  have h := lastSummarizedCount_monotone sampleTreeStale sampleTreeStale "a"
    .refl
  refine ⟨?_, ?_⟩
  · exact h.1 sampleStale sampleStale
      (by simp [getDoc, findSession, Dir.doc, sampleTreeStale])
      (by simp [getDoc, findSession, Dir.doc, sampleTreeStale])
  · exact h.2 (.ok (some "new")) "new" 1
      (by simp [summarize, findSession, Dir.doc, sampleTreeStale, sampleStale,
        jsOr])

theorem buildContextChain_none (t : Tree) (f : Nat) (cur : Option String)
    (h : strTruthy cur = none) : buildContextChain t f cur = [] := by
  cases f <;> simp [buildContextChain, h]

/-- C6: `buildContextChain` walks `parentId` references upward until a
root or an unresolvable id and returns the visited entries reversed,
i.e. in root-to-leaf order (oldest ancestor first, the target last) —
`chainVisit` is the walk in visit order, stopping at a failed lookup or
unreadable document while keeping the entries already collected, so a
mid-walk failure truncates the chain instead of failing the call.
Concretely: for a nested root→mid→leaf store the chain from the leaf is
`[root, mid, leaf]` and the chain from the root is the single-element
`[root]`; when the mid node's parent id resolves to nothing, the chain
from the leaf is the truncated `[mid, leaf]`. -/
theorem buildContextChain_root_to_leaf :
    (∀ (t : Tree) (fuel : Nat) (cur : Option String),
        buildContextChain t fuel cur = (chainVisit t fuel cur).reverse) ∧
    (∀ (r m l : Session) (nr nm nl : String) (fuel : Nat),
        nr ≠ nm → nr ≠ nl → nm ≠ nl → nr ≠ "" → nl ≠ "" →
        strTruthy r.parentId = none →
        strTruthy m.parentId = some nr →
        strTruthy l.parentId = some nm →
        buildContextChain
            [.mk nr (some r) [.mk nm (some m) [.mk nl (some l) []]]]
            (fuel + 3) (some nl) = [chainItem r, chainItem m, chainItem l] ∧
        buildContextChain
            [.mk nr (some r) [.mk nm (some m) [.mk nl (some l) []]]]
            (fuel + 1) (some nr) = [chainItem r]) ∧
    (∀ (m l : Session) (nm nl nx : String) (fuel : Nat),
        nm ≠ nl → nx ≠ nm → nx ≠ nl → nl ≠ "" →
        strTruthy m.parentId = some nx →
        strTruthy l.parentId = some nm →
        buildContextChain [.mk nm (some m) [.mk nl (some l) []]]
          (fuel + 3) (some nl) = [chainItem m, chainItem l]) := by
  refine ⟨?_, ?_, ?_⟩
  · intro t fuel
    induction fuel with
    | zero => intro cur; simp [buildContextChain, chainVisit]
    | succ f ih =>
      intro cur
      simp only [buildContextChain, chainVisit]
      cases hst : strTruthy cur with
      | none => simp
      | some cid =>
        cases hfs : findSession cid t with
        | none => simp [hfs]
        | some d =>
          cases hdoc : d.doc with
          | none => simp [hfs, hdoc]
          | some s => simp [hfs, hdoc, ih]
  · intro r m l nr nm nl fuel hrm hrl hml hr0 hl0 hpr hpm hpl
    have hlr : ¬ nr = nl := hrl
    have hlm : ¬ nm = nl := hml
    have hmr : ¬ nr = nm := hrm
    have e1 : strTruthy (some nl) = some nl := by simp [strTruthy, hl0]
    have e2 : strTruthy (some nr) = some nr := by simp [strTruthy, hr0]
    have f1 : findSession nl
        [Dir.mk nr (some r) [.mk nm (some m) [.mk nl (some l) []]]] =
        some (.mk nl (some l) []) := by
      simp [findSession, hlr, hlm]
    have f2 : findSession nm
        [Dir.mk nr (some r) [.mk nm (some m) [.mk nl (some l) []]]] =
        some (.mk nm (some m) [.mk nl (some l) []]) := by
      simp [findSession, hmr]
    have f3 : findSession nr
        [Dir.mk nr (some r) [.mk nm (some m) [.mk nl (some l) []]]] =
        some (.mk nr (some r) [.mk nm (some m) [.mk nl (some l) []]]) := by
      simp [findSession]
    constructor
    · simp only [buildContextChain, e1, f1, Dir.doc, hpl, f2, hpm, f3, hpr]
      simp [buildContextChain_none _ _ _ hpr]
    · simp only [buildContextChain, e2, f3, Dir.doc, hpr]
      simp [buildContextChain_none _ _ _ hpr]
  · intro m l nm nl nx fuel hml hxm hxl hl0 hpm hpl
    have hlm : ¬ nm = nl := hml
    have hxm' : ¬ nm = nx := fun hh => hxm hh.symm
    have hxl' : ¬ nl = nx := fun hh => hxl hh.symm
    have e1 : strTruthy (some nl) = some nl := by simp [strTruthy, hl0]
    have f1 : findSession nl [Dir.mk nm (some m) [.mk nl (some l) []]] =
        some (.mk nl (some l) []) := by
      simp [findSession, hlm]
    have f2 : findSession nm [Dir.mk nm (some m) [.mk nl (some l) []]] =
        some (.mk nm (some m) [.mk nl (some l) []]) := by
      simp [findSession]
    have f3 : findSession nx [Dir.mk nm (some m) [.mk nl (some l) []]] =
        none := by
      simp [findSession, hxm', hxl']
    simp only [buildContextChain, e1, f1, Dir.doc, hpl, f2, hpm, f3]
    simp

/-- Witness for C6 at the concrete `R/C/G` store: the chain from `G` is
`[root, mid, leaf]`, the chain from `R` is `[root]`, and with `R`
missing the chain from `G` truncates to `[mid, leaf]`. -/
theorem buildContextChain_root_to_leaf_witness :
    buildContextChain sampleTreeRCG 3 (some "G")
      = [chainItem sampleR, chainItem sampleC, chainItem sampleG] ∧
    buildContextChain sampleTreeRCG 1 (some "R") = [chainItem sampleR] ∧
    buildContextChain [.mk "C" (some sampleC) [.mk "G" (some sampleG) []]]
      3 (some "G") = [chainItem sampleC, chainItem sampleG] := by
  have h2 := buildContextChain_root_to_leaf.2.1 sampleR sampleC sampleG
    "R" "C" "G" 0 (by decide) (by decide) (by decide) (by decide) (by decide)
    (by decide) (by decide) (by decide)
  have h3 := buildContextChain_root_to_leaf.2.2 sampleC sampleG
    "C" "G" "R" 0 (by decide) (by decide) (by decide) (by decide)
    (by decide) (by decide)
  exact ⟨by simpa [sampleTreeRCG] using h2.1,
    by simpa [sampleTreeRCG] using h2.2, h3⟩

/-- C7: for a chat request carrying a truthy session id and a
non-empty message list, the list forwarded upstream is exactly the
optional synthetic system-context message — present if and only if the
session's context chain has strictly more than one element — followed
by the caller's messages, unchanged and in their original order; in
particular a chain of at most one element (a lone root) forwards the
caller's messages untouched. -/
theorem chat_context_injection (fuel : Nat) (sessionId : Option String)
    (sid : String) (messages : List Message) (t : Tree)
    (hsid : strTruthy sessionId = some sid)
    (hne : messages ≠ []) :
    chatApiMessages fuel sessionId messages t =
      .forwarded ((if 1 < (buildContextChain t fuel (some sid)).length
        then [⟨"system", contextText (buildContextChain t fuel (some sid))⟩]
        else []) ++ messages) ∧
    ((buildContextChain t fuel (some sid)).length ≤ 1 →
      chatApiMessages fuel sessionId messages t = .forwarded messages) := by
  have hne' : messages.isEmpty = false := by
    simpa [List.isEmpty_iff] using hne
  constructor
  · by_cases hlen : 1 < (buildContextChain t fuel (some sid)).length
    · simp [chatApiMessages, hne', hsid, hlen]
    · simp [chatApiMessages, hne', hsid, hlen]
  · intro hle
    have hnlt : ¬ 1 < (buildContextChain t fuel (some sid)).length := by omega
    simp [chatApiMessages, hne', hsid, hnlt]

/-- Witness for C7: with ancestry (session `G` of the `R/C/G` store)
the context message is prepended; for the bare root `R` the caller's
message list is forwarded untouched. -/
theorem chat_context_injection_witness :
    chatApiMessages 3 (some "G") [⟨"user", "hi"⟩] sampleTreeRCG =
      .forwarded ((if 1 < (buildContextChain sampleTreeRCG 3 (some "G")).length
        then [⟨"system", contextText (buildContextChain sampleTreeRCG 3 (some "G"))⟩]
        else []) ++ [⟨"user", "hi"⟩]) ∧
    chatApiMessages 1 (some "R") [⟨"user", "hi"⟩] sampleTreeRCG =
      .forwarded [⟨"user", "hi"⟩] := by
  constructor
  · exact (chat_context_injection 3 (some "G") "G" [⟨"user", "hi"⟩]
      sampleTreeRCG (by decide) (by decide)).1
  · refine (chat_context_injection 1 (some "R") "R" [⟨"user", "hi"⟩]
      sampleTreeRCG (by decide) (by decide)).2 ?_
    have e2 : strTruthy (some "R") = some "R" := by decide
    have f3 : findSession "R" sampleTreeRCG =
        some (.mk "R" (some sampleR)
          [.mk "C" (some sampleC) [.mk "G" (some sampleG) []]]) := by
      simp [sampleTreeRCG, findSession]
    have hpr : strTruthy sampleR.parentId = none := by decide
    simp [buildContextChain, e2, f3, Dir.doc, hpr]

/-- C8: `getAllSessions` skips a directory whose document is
unreadable or malformed silently — removing every corrupt top-level
directory (its hidden subtree with it) leaves the listing unchanged,
and in particular a storage tree holding one corrupt directory and two
valid conversations lists exactly the two valid ones.  The function is
total, so no error aborts the traversal. -/
theorem listAll_skips_corrupt :
    (∀ (pre post : Tree) (n : String) (kids : Tree),
        getAllSessions (pre ++ .mk n none kids :: post) =
          getAllSessions (pre ++ post)) ∧
    (∀ (nb n1 n2 : String) (kb : Tree) (s1 s2 : Session),
        getAllSessions
            [.mk nb none kb, .mk n1 (some s1) [], .mk n2 (some s2) []]
          = [s1, s2]) := by
  constructor
  · intro pre post n kids
    induction pre with
    | nil => simp [getAllSessions]
    | cons d rest ih =>
      rw [List.cons_append, getAllSessions_cons, List.cons_append,
        getAllSessions_cons, ih]
  · intro nb n1 n2 kb s1 s2
    simp [getAllSessions]

/-- C9: during streaming relay, a `data:` line whose payload fails to
parse as JSON is dropped silently and the relay continues with the
remaining lines; consequently a stream of a valid chunk, a malformed
chunk, another valid chunk and the `[DONE]` marker delivers exactly
the two parsed events followed by the terminal marker. -/
theorem stream_drops_malformed_chunk {J : Type} (parse : String → Option J) :
    (∀ (d : String) (rest : List String),
        parse d = none → d ≠ "[DONE]" →
        relayStreamLines parse (("data: " ++ d) :: rest) =
          relayStreamLines parse rest) ∧
    (∀ (b1 bb b2 : String) (j1 j2 : J),
        parse b1 = some j1 → b1 ≠ "[DONE]" →
        parse bb = none → bb ≠ "[DONE]" →
        parse b2 = some j2 → b2 ≠ "[DONE]" →
        relayStreamLines parse
            ["data: " ++ b1, "data: " ++ bb, "data: " ++ b2, "data: [DONE]"] =
          [.data j1, .data j2, .done]) := by
  have hsw : ∀ d : String, strStartsWith ("data: " ++ d) "data: " = true := by
    intro d; simp [strStartsWith]
  have hsl : ∀ d : String, strSlice 6 ("data: " ++ d) = d := by
    intro d; simp [strSlice]
  constructor
  · intro d rest hparse hne
    simp [relayStreamLines, hsw, hsl, hparse, hne]
  · intro b1 bb b2 j1 j2 hp1 hn1 hpb hnb hp2 hn2
    have h1 : strStartsWith "data: [DONE]" "data: " = true := by decide
    have h2 : strSlice 6 "data: [DONE]" = "[DONE]" := by decide
    simp [relayStreamLines, hsw, hsl, hp1, hn1, hpb, hnb, hp2, hn2, h1, h2]

/-- A concrete parse oracle for the C9 witness: accepts exactly the
payloads `one` and `two`. -/
def sampleParse : String → Option Nat :=
  fun s => if s = "one" then some 1 else if s = "two" then some 2 else none

/-- Witness for C9 with the concrete oracle `sampleParse`: the
malformed middle chunk is dropped and the relay yields the two parsed
events plus the terminal marker. -/
theorem stream_drops_malformed_chunk_witness :
    relayStreamLines sampleParse
        ["data: one", "data: junk", "data: two", "data: [DONE]"] =
      [.data 1, .data 2, .done] := by
  have h := (stream_drops_malformed_chunk sampleParse).2 "one" "junk" "two"
    1 2 (by decide) (by decide) (by decide) (by decide) (by decide) (by decide)
  have e : ("data: one" : String) = "data: " ++ "one" ∧
      ("data: junk" : String) = "data: " ++ "junk" ∧
      ("data: two" : String) = "data: " ++ "two" := by decide
  rw [e.1, e.2.1, e.2.2]
  exact h

end MindGit
